import Mathlib

/-!
Verification of the chant search, grouping and creation logic of
`main_app/views/chant.py` (CantusDB).

The Django views are shallowly embedded: database tables become lists of
records, querysets become list filters, `order_by` becomes a stable
insertion sort over an explicit comparison key, and the Q-object
conjunctions built by `ChantSearchView.get_queryset` /
`ChantSearchMSView.get_queryset` become boolean predicates.  Record ids,
foreign keys and flags are carried verbatim; nullable columns are
`Option` fields, with `Q(field__isnull=...)` read as `Option.isNone` /
`Option.isSome`.  Case-insensitive matching (`icontains` /
`istartswith`) is modelled by ASCII case folding over the code points of
the strings involved, which is exact for the data exercised here.
-/

/-- ASCII case folding on a code point, used to model the case-insensitive
(`i`-prefixed) lookups the views delegate to the database. -/
def foldChar (n : Nat) : Nat := if 65 ≤ n && n ≤ 90 then n + 32 else n

/-- The case-folded code-point sequence of a string. -/
def ikey (s : String) : List Nat := s.toList.map (fun c => foldChar c.toNat)

/-- `pat` occurs as a contiguous infix of `hay`. -/
def infixOfB (pat : List Nat) : List Nat → Bool
  | [] => pat.isPrefixOf []
  | a :: t => pat.isPrefixOf (a :: t) || infixOfB pat t

/-- `istartswith`: case-insensitive prefix test. -/
def istrStartsWith (s pat : String) : Bool := (ikey pat).isPrefixOf (ikey s)

/-- `icontains`: case-insensitive substring test. -/
def istrContains (s pat : String) : Bool := infixOfB (ikey pat) (ikey s)

/-- `istartswith` lifted to a nullable column: SQL null never matches. -/
def iStartsOpt (f : Option String) (pat : String) : Bool :=
  match f with
  | none => false
  | some s => istrStartsWith s pat

/-- `icontains` lifted to a nullable column: SQL null never matches. -/
def iContainsOpt (f : Option String) (pat : String) : Bool :=
  match f with
  | none => false
  | some s => istrContains s pat

/-- Total lexicographic comparison of code-point sequences, the order the
database applies to textual sort keys. -/
def lexLe : List Nat → List Nat → Bool
  | [], _ => true
  | _ :: _, [] => false
  | a :: as, b :: bs => if a < b then true else if b < a then false else lexLe as bs

theorem lexLe_total : ∀ a b, lexLe a b = true ∨ lexLe b a = true := by
  intro a
  induction a with
  | nil => intro b; left; rfl
  | cons x xs ih =>
    intro b
    cases b with
    | nil => right; rfl
    | cons y ys =>
      simp only [lexLe]
      rcases Nat.lt_trichotomy x y with h | h | h
      · left; simp [h]
      · subst h; simpa [Nat.lt_irrefl] using ih ys
      · right; simp [h, Nat.lt_asymm h]

theorem lexLe_trans :
    ∀ a b c, lexLe a b = true → lexLe b c = true → lexLe a c = true := by
  intro a
  induction a with
  | nil => intro b c _ _; rfl
  | cons x xs ih =>
    intro b c hab hbc
    cases b with
    | nil => simp [lexLe] at hab
    | cons y ys =>
      cases c with
      | nil => simp [lexLe] at hbc
      | cons z zs =>
        simp only [lexLe] at hab hbc ⊢
        rcases Nat.lt_trichotomy x y with h1 | h1 | h1
        · rcases Nat.lt_trichotomy y z with h2 | h2 | h2
          · simp [Nat.lt_trans h1 h2]
          · subst h2; simp [h1]
          · exfalso; simp [h2, Nat.lt_asymm h2] at hbc
        · subst h1
          rcases Nat.lt_trichotomy x z with h2 | h2 | h2
          · simp [h2]
          · subst h2
            simp only [Nat.lt_irrefl, if_false] at hab hbc ⊢
            exact ih _ _ hab hbc
          · simp [h2, Nat.lt_asymm h2] at hbc
        · simp [h1, Nat.lt_asymm h1] at hab

theorem lexLe_antisymm : ∀ a b, lexLe a b = true → lexLe b a = true → a = b := by
  intro a
  induction a with
  | nil =>
    intro b _ hba
    cases b with
    | nil => rfl
    | cons y ys => simp [lexLe] at hba
  | cons x xs ih =>
    intro b hab hba
    cases b with
    | nil => simp [lexLe] at hab
    | cons y ys =>
      simp only [lexLe] at hab hba
      rcases Nat.lt_trichotomy x y with h | h | h
      · simp [h, Nat.lt_asymm h] at hba
      · subst h
        simp only [Nat.lt_irrefl, if_false] at hab hba
        rw [ih ys hab hba]
      · simp [h, Nat.lt_asymm h] at hab

/-- A holding institution; only its identifying code (siglum) is relevant
to the views under study. -/
structure Institution where
  siglum : String
deriving DecidableEq, Repr

/-- A `Source` row: container of records, with the published/unpublished
visibility flag and the segment id that `ChantSearchMSView` uses to pick
between the chant and the sequence table. -/
structure Source where
  id : Nat
  published : Bool
  segment_id : Nat
  holding_institution : Institution
deriving DecidableEq, Repr

/-- A `Feast` row. -/
structure Feast where
  id : Nat
  name : String
deriving DecidableEq, Repr

/-- A chant or sequence record.  The two Django models share every field
the search views filter or sort on (the union in the views turns
sequences into chants), so a single record type stands for both tables.
The owning `Source` row is carried denormalised on the record, standing
for the `source` foreign key plus the joined row. -/
structure Chant where
  id : Nat
  source : Source
  folio : Option String := none
  c_sequence : Option Nat := none
  incipit : Option String := none
  manuscript_full_text : Option String := none
  manuscript_full_text_std_spelling : Option String := none
  volpiano : Option String := none
  image_link : Option String := none
  cantus_id : Option String := none
  mode : Option String := none
  position : Option String := none
  service_id : Option Nat := none
  genre_id : Option Nat := none
  feast : Option Feast := none
  is_last_chant_in_feast : Bool := false
  next_chant_id : Option Nat := none
  indexing_notes : Option String := none
deriving DecidableEq, Repr

/-- The relational store the views query: the chant table, the sequence
table, the source table and the feast table, each in storage order. -/
structure DB where
  chants : List Chant
  sequences : List Chant
  sources : List Source
  feasts : List Feast
deriving DecidableEq, Repr

/-- The optional `GET` parameters accepted by the search views.  `none`
stands for an absent (or empty, hence falsy) parameter.  `hasGetParams`
records whether `request.GET` is non-empty at all: the views return an
empty queryset when it is empty, and the key set can be non-empty even
when every individual parameter is blank. -/
structure SearchParams where
  hasGetParams : Bool := true
  search_bar : Option String := none
  service : Option Nat := none
  genre : Option Nat := none
  cantus_id : Option String := none
  mode : Option String := none
  position : Option String := none
  melodies : Option String := none
  feast : Option String := none
  keyword : Option String := none
  op : Option String := none
  indexing_notes : Option String := none
  indexing_notes_op : Option String := none
  order : Option String := none
  sort : Option String := none
deriving DecidableEq, Repr

/-- Sort key of a nullable text column: SQL nulls sort as the empty key. -/
def optStrKey : Option String → List Nat
  | none => []
  | some s => s.toList.map Char.toNat

/-- Sort key of a nullable integer (foreign-key) column. -/
def optNatKey : Option Nat → List Nat
  | none => []
  | some n => [n + 1]

/-- The value a record contributes under an `order_by` field name.  The
names are exactly the strings the two views pass to `order_by`; every
other name (only `"siglum"` and `"source__holding_institution__siglum"`
remain in the views) denotes the owning institution's identifying code.
The `Chant` model itself is not under `src/`; per the spec the `siglum`
ordering key is the owning institution's identifying code. -/
def fieldKey (field : String) (c : Chant) : List Nat :=
  if field = "incipit" then optStrKey c.incipit
  else if field = "service" then optNatKey c.service_id
  else if field = "genre" then optNatKey c.genre_id
  else if field = "cantus_id" then optStrKey c.cantus_id
  else if field = "mode" then optStrKey c.mode
  else if field = "feast" then optNatKey (c.feast.map Feast.id)
  else if field = "manuscript_full_text" then optStrKey c.manuscript_full_text
  else if field = "volpiano" then optStrKey c.volpiano
  else if field = "image_link" then optStrKey c.image_link
  else optStrKey (some c.source.holding_institution.siglum)


/-- Directional comparison of primary sort keys: `desc = true` reverses
the comparison (the `-` prefix on the `order_by` field). -/
def dirLe (desc : Bool) (ka kb : List Nat) : Bool :=
  if desc then lexLe kb ka else lexLe ka kb

theorem dirLe_total (desc : Bool) (ka kb : List Nat) :
    dirLe desc ka kb = true ∨ dirLe desc kb ka = true := by
  cases desc <;> simp only [dirLe, if_true, if_false] <;>
    [exact lexLe_total ka kb; exact (lexLe_total ka kb).symm]

theorem dirLe_trans (desc : Bool) (ka kb kc : List Nat)
    (h1 : dirLe desc ka kb = true) (h2 : dirLe desc kb kc = true) :
    dirLe desc ka kc = true := by
  cases desc <;> simp only [dirLe, if_true, if_false] at h1 h2 ⊢
  · exact lexLe_trans _ _ _ h1 h2
  · exact lexLe_trans _ _ _ h2 h1

theorem dirLe_antisymm (desc : Bool) (ka kb : List Nat)
    (h1 : dirLe desc ka kb = true) (h2 : dirLe desc kb ka = true) : ka = kb := by
  cases desc <;> simp only [dirLe, if_true, if_false] at h1 h2
  · exact lexLe_antisymm _ _ h1 h2
  · exact lexLe_antisymm _ _ h2 h1

/-- The comparison realised by `queryset.order_by(order, "id")`, where
`order` is `field` optionally prefixed by `-` (`desc = true`): the
primary key compared in the requested direction, and on primary-key ties
the record id, always ascending. -/
def searchLe (field : String) (desc : Bool) (a b : Chant) : Bool :=
  if fieldKey field a = fieldKey field b then a.id ≤ b.id
  else dirLe desc (fieldKey field a) (fieldKey field b)

/-- `order_by(order, "id")` over an in-memory record list. -/
def orderByKeyId (field : String) (desc : Bool) (l : List Chant) : List Chant :=
  List.insertionSort (fun a b => searchLe field desc a b = true) l

theorem searchLe_total (field : String) (desc : Bool) (a b : Chant) :
    searchLe field desc a b = true ∨ searchLe field desc b a = true := by
  unfold searchLe
  by_cases h : fieldKey field a = fieldKey field b
  · simp [h, Nat.le_total]
  · have h' : ¬ fieldKey field b = fieldKey field a := fun e => h e.symm
    simp only [if_neg h, if_neg h']
    exact dirLe_total desc _ _

theorem searchLe_trans (field : String) (desc : Bool) (a b c : Chant)
    (hab : searchLe field desc a b = true) (hbc : searchLe field desc b c = true) :
    searchLe field desc a c = true := by
  unfold searchLe at hab hbc ⊢
  by_cases h1 : fieldKey field a = fieldKey field b
  · by_cases h2 : fieldKey field b = fieldKey field c
    · have h3 : fieldKey field a = fieldKey field c := h1.trans h2
      simp only [if_pos h1, if_pos h2, if_pos h3] at hab hbc ⊢
      simp only [decide_eq_true_eq] at hab hbc ⊢
      omega
    · have h3 : ¬ fieldKey field a = fieldKey field c := by rw [h1]; exact h2
      simp only [if_pos h1, if_neg h2, if_neg h3] at hbc ⊢
      rw [h1]
      exact hbc
  · by_cases h2 : fieldKey field b = fieldKey field c
    · have h3 : ¬ fieldKey field a = fieldKey field c := by rw [← h2]; exact h1
      simp only [if_neg h1, if_pos h2, if_neg h3] at hab ⊢
      rw [← h2]
      exact hab
    · by_cases h3 : fieldKey field a = fieldKey field c
      · exfalso
        simp only [if_neg h1, if_neg h2] at hab hbc
        rw [h3] at hab
        exact h2 (dirLe_antisymm desc _ _ hbc hab)
      · simp only [if_neg h1, if_neg h2, if_neg h3] at hab hbc ⊢
        exact dirLe_trans desc _ _ _ hab hbc

theorem searchLe_id_eq (field : String) (desc : Bool) (a b : Chant)
    (hab : searchLe field desc a b = true) (hba : searchLe field desc b a = true) :
    a.id = b.id := by
  unfold searchLe at hab hba
  by_cases h : fieldKey field a = fieldKey field b
  · have h' : fieldKey field b = fieldKey field a := h.symm
    simp only [if_pos h, if_pos h', decide_eq_true_eq] at hab hba
    omega
  · exfalso
    have h' : ¬ fieldKey field b = fieldKey field a := fun e => h e.symm
    simp only [if_neg h, if_neg h'] at hab hba
    exact h (dirLe_antisymm desc _ _ hab hba)

/-- `sort=desc` is the only value that reverses the ordering, in both
views (`sort_get_param and sort_get_param == "desc"` /
`"-" if sort == "desc"`). -/
def descRequested (sort : Option String) : Bool := sort == some "desc"

/-- Ordering-key resolution of `ChantSearchView.get_queryset`: the
recognised keys, the three `has_*` aliases, and the fallback to the
holding institution's siglum for everything else (an absent parameter
included). -/
def resolveOrderGlobal (order : Option String) : String :=
  match order with
  | some o =>
    if o ∈ ["incipit", "service", "genre", "cantus_id", "mode",
            "has_fulltext", "has_melody", "has_image"] then
      if o = "has_fulltext" then "manuscript_full_text"
      else if o = "has_melody" then "volpiano"
      else if o = "has_image" then "image_link"
      else o
    else "source__holding_institution__siglum"
  | none => "source__holding_institution__siglum"

/-- Ordering-key resolution of `ChantSearchMSView.get_queryset`:
`GET.get("order", "siglum")`, the recognised keys, the three `has_*`
aliases, and the fallback to `"siglum"`. -/
def resolveOrderMS (order : Option String) : String :=
  let order_value := order.getD "siglum"
  if order_value ∈ ["siglum", "incipit", "genre", "cantus_id", "mode",
                    "feast", "service"] then order_value
  else if order_value = "has_fulltext" then "manuscript_full_text"
  else if order_value = "has_melody" then "volpiano"
  else if order_value = "has_image" then "image_link"
  else "siglum"

/-- `filter(source__published=True)`. -/
def publishedOnly (l : List Chant) : List Chant :=
  l.filter (fun c => c.source.published)

/-- The chant collection the global search starts from: all chants for an
authenticated caller, only those of published sources otherwise. -/
def baseChants (db : DB) (auth : Bool) : List Chant :=
  if auth then db.chants else publishedOnly db.chants

/-- The sequence collection the global search starts from. -/
def baseSequences (db : DB) (auth : Bool) : List Chant :=
  if auth then db.sequences else publishedOnly db.sequences

/-- The incipit-or-cantus-id predicate of the global search bar: a term
containing a digit is treated as a cantus-id substring search. -/
def searchBarTextMatch (term : String) (c : Chant) : Bool :=
  iStartsOpt c.manuscript_full_text term ||
  iStartsOpt c.manuscript_full_text_std_spelling term ||
  iStartsOpt c.incipit term

/-- The Q-object conjunction `ChantSearchView.get_queryset` accumulates
over the form parameters, branch for branch: exact id match for service
and genre, case-insensitive substring for cantus id and feast name,
exact match for mode and position, and — for the `melodies` parameter —
a constraint only when its value is `"true"` (`volpiano__isnull=False`);
any other value, `"false"` included, leaves the filter unchanged. -/
def globalQFilter (p : SearchParams) (c : Chant) : Bool :=
  (match p.service with | some sid => c.service_id == some sid | none => true) &&
  (match p.genre with | some gid => c.genre_id == some gid | none => true) &&
  (match p.cantus_id with | some q => iContainsOpt c.cantus_id q | none => true) &&
  (match p.mode with | some m => c.mode == some m | none => true) &&
  (match p.position with | some q => c.position == some q | none => true) &&
  (match p.melodies with
   | some m => if m = "true" then c.volpiano.isSome else true
   | none => true) &&
  (match p.feast with
   | some q => (match c.feast with | some f => istrContains f.name q | none => false)
   | none => true)

/-- The keyword filter both search views apply last: the three text
fields combined with OR, `icontains` when `op == "contains"` and
`istartswith` otherwise (absent or unrecognised `op` included). -/
def keywordMatch (op : Option String) (kw : String) (c : Chant) : Bool :=
  if op == some "contains" then
    iContainsOpt c.manuscript_full_text kw ||
    iContainsOpt c.manuscript_full_text_std_spelling kw ||
    iContainsOpt c.incipit kw
  else
    iStartsOpt c.manuscript_full_text kw ||
    iStartsOpt c.manuscript_full_text_std_spelling kw ||
    iStartsOpt c.incipit kw

/-- The merged record list of `ChantSearchView.get_queryset` before
ordering: the search-bar branch (cantus-id search when the term contains
a digit, incipit prefix search otherwise); otherwise the form branch —
the published-source restriction for unauthenticated callers, then the
accumulated Q-object filter, then the keyword filter — with the chant
and sequence results concatenated (`union(..., all=True)`). -/
def globalMerged (db : DB) (auth : Bool) (p : SearchParams) : List Chant :=
  match p.search_bar with
  | some sb =>
    let cs := baseChants db auth
    let ss := baseSequences db auth
    if sb.toList.any Char.isDigit then
      cs.filter (fun c => iContainsOpt c.cantus_id sb) ++
      ss.filter (fun c => iContainsOpt c.cantus_id sb)
    else
      cs.filter (searchBarTextMatch sb) ++ ss.filter (searchBarTextMatch sb)
  | none =>
    let cs := (baseChants db auth).filter (globalQFilter p)
    let ss := (baseSequences db auth).filter (globalQFilter p)
    let cs2 := match p.keyword with
      | some kw => cs.filter (keywordMatch p.op kw)
      | none => cs
    let ss2 := match p.keyword with
      | some kw => ss.filter (keywordMatch p.op kw)
      | none => ss
    cs2 ++ ss2

/-- `ChantSearchView.get_queryset` (the global search): empty result on
an empty `GET`, otherwise the merged filtered records under
`order_by(order, "id")`. -/
def chantSearchQueryset (db : DB) (auth : Bool) (p : SearchParams) : List Chant :=
  if !p.hasGetParams then []
  else
    orderByKeyId (resolveOrderGlobal p.order) (descRequested p.sort)
      (globalMerged db auth p)

/-- `ChantByCantusIDView.get_queryset`: exact cantus-id match on both
tables, the published-source restriction for unauthenticated callers,
a deduplicating union, and ordering by the institution siglum. -/
def chantSeqByCantusId (db : DB) (auth : Bool) (cid : String) : List Chant :=
  let cs := db.chants.filter (fun c => c.cantus_id == some cid)
  let ss := db.sequences.filter (fun c => c.cantus_id == some cid)
  let cs2 := if auth then cs else publishedOnly cs
  let ss2 := if auth then ss else publishedOnly ss
  List.insertionSort
    (fun a b =>
      lexLe (fieldKey "source__holding_institution__siglum" a)
        (fieldKey "source__holding_institution__siglum" b) = true)
    ((cs2 ++ ss2).dedup)

/-- The failure modes of `ChantSearchMSView`: `Source.objects.get`
raising `DoesNotExist` in `get_queryset`, `get_object_or_404` raising
`Http404`, and the `PermissionDenied` for an unpublished source and an
unauthenticated caller, both in `get_context_data`. -/
inductive ViewErr where
  | doesNotExist
  | http404
  | permissionDenied
deriving DecidableEq, Repr

/-- The Q-object conjunction of `ChantSearchMSView.get_queryset`.  It has
no `position` branch, and its `melodies` branch constrains in both
directions: `"true"` adds `volpiano__isnull=False`, `"false"` adds
`volpiano__isnull=True`. -/
def msQFilter (p : SearchParams) (c : Chant) : Bool :=
  (match p.service with | some sid => c.service_id == some sid | none => true) &&
  (match p.genre with | some gid => c.genre_id == some gid | none => true) &&
  (match p.cantus_id with | some q => iContainsOpt c.cantus_id q | none => true) &&
  (match p.mode with | some m => c.mode == some m | none => true) &&
  (match p.melodies with
   | some m =>
     (if m = "true" then c.volpiano.isSome else true) &&
     (if m = "false" then c.volpiano.isNone else true)
   | none => true) &&
  (match p.feast with
   | some q => (match c.feast with | some f => istrContains f.name q | none => false)
   | none => true)

/-- The indexing-notes filter of the per-source search. -/
def indexingNotesMatch (op : Option String) (q : String) (c : Chant) : Bool :=
  if op == some "contains" then iContainsOpt c.indexing_notes q
  else iStartsOpt c.indexing_notes q

/-- `ChantSearchMSView.get_queryset`: empty result on an empty `GET`; the
hard-coded empty result for `melodies == "true"` on source 680970; then
the source lookup, the choice between the sequence table (segment 4064)
and the chant table, the record scoping to the source, the Q-object
filter, the keyword filter, the indexing-notes filter, and
`order_by(order, "id")`. -/
def msGetQueryset (db : DB) (source_pk : Nat) (p : SearchParams) :
    Except ViewErr (List Chant) :=
  if !p.hasGetParams then Except.ok []
  else if p.melodies == some "true" && source_pk == 680970 then Except.ok []
  else
    match db.sources.find? (fun s => s.id == source_pk) with
    | none => Except.error ViewErr.doesNotExist
    | some source =>
      let table := if source.segment_id == 4064 then db.sequences else db.chants
      let qs := table.filter (fun c => c.source.id == source_pk)
      let qs2 := qs.filter (msQFilter p)
      let qs3 := match p.keyword with
        | some kw => qs2.filter (keywordMatch p.op kw)
        | none => qs2
      let qs4 := match p.indexing_notes with
        | some q => qs3.filter (indexingNotesMatch p.indexing_notes_op q)
        | none => qs3
      Except.ok (orderByKeyId (resolveOrderMS p.order) (descRequested p.sort) qs4)

/-- The full `ChantSearchMSView` request: `get_queryset` runs first, then
`get_context_data` re-fetches the source (404 when absent) and raises
`PermissionDenied` when the source is unpublished and the caller is not
authenticated; only then is the record list returned to the caller. -/
def msSearchResponse (db : DB) (auth : Bool) (source_pk : Nat) (p : SearchParams) :
    Except ViewErr (List Chant) :=
  match msGetQueryset db source_pk p with
  | Except.error e => Except.error e
  | Except.ok qs =>
    match db.sources.find? (fun s => s.id == source_pk) with
    | none => Except.error ViewErr.http404
    | some source =>
      if !source.published && !auth then Except.error ViewErr.permissionDenied
      else Except.ok qs

/-- Source rows referenced by records agree with the source table: two
rows with the same id are the same row.  This is the referential
integrity the relational store guarantees for the denormalised
`Chant.source` field. -/
def sourceConsistent (db : DB) : Bool :=
  (db.chants ++ db.sequences).all (fun c =>
    db.sources.all (fun s => s.id != c.source.id || c.source == s))

/-- Page `n` (1-indexed) of a result list under `paginate_by = 100`. -/
def paginatePage (l : List Chant) (n : Nat) : List Chant :=
  (l.drop (100 * (n - 1))).take 100

/-- One step of the `defaultdict(list)` loop in `get_chants_with_feasts`:
append the record to the group of its key, creating the group at the end
of the (insertion-ordered) dictionary when the key is new. -/
def addToGroup (m : List (Option Nat × List Chant)) (k : Option Nat) (c : Chant) :
    List (Option Nat × List Chant) :=
  match m with
  | [] => [(k, [c])]
  | (k1, l) :: rest =>
    if k1 = k then (k1, l ++ [c]) :: rest else (k1, l) :: addToGroup rest k c

/-- The `feasts_chants` dictionary after the loop of
`get_chants_with_feasts`: records grouped under their feast id, records
without a feast under the `none` key. -/
def buildFeastsChants (chants : List Chant) : List (Option Nat × List Chant) :=
  chants.foldl (fun m c => addToGroup m (c.feast.map Feast.id) c) []

/-- `defaultdict` lookup: the group of a key, empty when absent. -/
def groupGet (m : List (Option Nat × List Chant)) (k : Option Nat) : List Chant :=
  match m.find? (fun e => e.1 = k) with
  | some e => e.2
  | none => []

/-- `get_chants_with_feasts`: group the (already folio-scoped, already
`c_sequence`-ordered) records by feast id, fetch the `Feast` rows whose
id occurs among the keys (`Feast.objects.filter(id__in=...)`, iterated
in feast-table order), pair each with its group, and always append the
group of records without a feast — a `defaultdict` access that creates
the entry, so the final pair is present even when that group is empty. -/
def get_chants_with_feasts (dbFeasts : List Feast) (chants : List Chant) :
    List (Option Feast × List Chant) :=
  let m := buildFeastsChants chants
  let keys := m.map (fun e => e.1)
  let feast_objects := dbFeasts.filter (fun f => (some f.id) ∈ keys)
  feast_objects.map (fun f => (some f, groupGet m (some f.id))) ++
    [(none, groupGet m none)]

/-- The folio scoping the chant-detail view applies before grouping:
`chants_in_source.filter(folio=...).order_by("c_sequence")`. -/
def chantsInFolio (chants : List Chant) (folio : String) : List Chant :=
  List.insertionSort
    (fun a b => a.c_sequence.getD 0 ≤ b.c_sequence.getD 0)
    (chants.filter (fun c => c.folio == some folio))

/-- One step of the `Counter` over next feasts: Django model instances
compare by primary key, so occurrences are counted per feast id, keyed
by the first-encountered `Feast` row, in first-encounter order. -/
def bumpFeast (m : List (Feast × Nat)) (f : Feast) : List (Feast × Nat) :=
  match m with
  | [] => [(f, 1)]
  | (g, k) :: rest =>
    if g.id = f.id then (g, k + 1) :: rest else (g, k) :: bumpFeast rest f

/-- `Counter(next_feasts)` as an insertion-ordered association list. -/
def countFeasts (l : List Feast) : List (Feast × Nat) := l.foldl bumpFeast []

/-- The records across the corpus flagged last-in-feast for the given
feast (`Chant.objects.filter(is_last_chant_in_feast=True, feast=...)`,
foreign keys compared by id). -/
def feastEnders (db : DB) (current_feast : Option Feast) : List Chant :=
  db.chants.filter (fun c =>
    c.is_last_chant_in_feast &&
      c.feast.map Feast.id == current_feast.map Feast.id)

/-- The feasts of the next-record links of those records: a missing
`next_chant` link is skipped (`isinstance(chant, Chant)`), as is a next
record without a feast. -/
def nextFeasts (db : DB) (current_feast : Option Feast) : List Feast :=
  (feastEnders db current_feast).filterMap (fun c =>
    match c.next_chant_id with
    | none => none
    | some nid =>
      match db.chants.find? (fun x => x.id == nid) with
      | none => none
      | some nx => nx.feast)

/-- `ChantCreateView.get_suggested_feasts`: count the feasts following
the latest chant's feast and sort the (feast, count) pairs by count,
descending; `sorted(..., reverse=True)` is stable, so ties keep their
first-encounter order, which the stable insertion sort reproduces. -/
def get_suggested_feasts (db : DB) (latest_chant : Chant) : List (Feast × Nat) :=
  let feast_counts := countFeasts (nextFeasts db latest_chant.feast)
  List.insertionSort (fun a b => a.2 ≥ b.2) feast_counts

/-- The incipit computation of `ChantCreateView.form_valid`: whole words
accumulated while the running text (with its trailing space) stays under
30 characters, then `strip(" ")`. -/
def computeIncipit (text : String) : String :=
  let words := text.splitOn " "
  let rec go (acc : String) : List String → String
    | [] => acc
    | w :: ws =>
      let n := acc ++ w ++ " "
      if n.length ≥ 30 then acc else go n ws
  let raw := go "" words
  ⟨(raw.toList.dropWhile (fun c => c = ' ')).reverse.dropWhile (fun c => c = ' ') |>.reverse⟩

/-- The data of the bound, already-valid chant-create form that
`form_valid` receives. -/
structure ChantForm where
  folio : Option String
  c_sequence : Option Nat
  manuscript_full_text_std_spelling : String
deriving DecidableEq, Repr

/-- The outcome of `ChantCreateView.form_valid`: either the chant is
persisted and the success page returned, or the form is re-rendered with
the errors attached and nothing is persisted. -/
inductive CreateOutcome where
  | created (incipit : String)
  | invalidForm (errors : List String)
deriving DecidableEq, Repr

/-- `ChantCreateView.form_valid`: attach the source, compute the
incipit, and — when a chant with the same source, folio and sequence
already exists — attach a duplicate-position error so that
`form.is_valid()` fails and `form_invalid` re-renders without saving;
otherwise save the new chant.  Returns the chant table after the request
together with the outcome. -/
def form_valid (dbChants : List Chant) (source : Source) (form : ChantForm)
    (new_id : Nat) : List Chant × CreateOutcome :=
  let incipit := computeIncipit form.manuscript_full_text_std_spelling
  let dup := dbChants.any (fun c =>
    c.source.id == source.id && c.folio == form.folio &&
      c.c_sequence == form.c_sequence)
  if dup then
    (dbChants,
     CreateOutcome.invalidForm
       ["Chant with the same sequence and folio already exists in this source."])
  else
    (dbChants ++
       [{ id := new_id, source := source, folio := form.folio,
          c_sequence := form.c_sequence, incipit := some incipit,
          manuscript_full_text_std_spelling :=
            some form.manuscript_full_text_std_spelling }],
     CreateOutcome.created incipit)

instance searchLeIsTotal (field : String) (desc : Bool) :
    IsTotal Chant (fun a b => searchLe field desc a b = true) :=
  ⟨searchLe_total field desc⟩

instance searchLeIsTrans (field : String) (desc : Bool) :
    IsTrans Chant (fun a b => searchLe field desc a b = true) :=
  ⟨searchLe_trans field desc⟩

theorem orderByKeyId_perm (field : String) (desc : Bool) (l : List Chant) :
    (orderByKeyId field desc l).Perm l :=
  List.perm_insertionSort _ l

theorem mem_orderByKeyId (field : String) (desc : Bool) (l : List Chant) (c : Chant) :
    c ∈ orderByKeyId field desc l ↔ c ∈ l :=
  (orderByKeyId_perm field desc l).mem_iff

theorem orderByKeyId_pairwise (field : String) (desc : Bool) (l : List Chant) :
    List.Pairwise (fun a b => searchLe field desc a b = true)
      (orderByKeyId field desc l) :=
  List.sorted_insertionSort _ l

/-- The keyword stage of the global and per-source searches as a single
test: no constraint when the keyword parameter is absent. -/
def kwTest (p : SearchParams) (c : Chant) : Bool :=
  match p.keyword with
  | some kw => keywordMatch p.op kw c
  | none => true

/-- The indexing-notes stage of the per-source search as a single test. -/
def notesTest (p : SearchParams) (c : Chant) : Bool :=
  match p.indexing_notes with
  | some q => indexingNotesMatch p.indexing_notes_op q c
  | none => true

theorem mem_baseChants_unauth (db : DB) (c : Chant) :
    c ∈ baseChants db false ↔ c ∈ db.chants ∧ c.source.published = true := by
  simp [baseChants, publishedOnly, List.mem_filter]

theorem mem_baseSequences_unauth (db : DB) (c : Chant) :
    c ∈ baseSequences db false ↔ c ∈ db.sequences ∧ c.source.published = true := by
  simp [baseSequences, publishedOnly, List.mem_filter]

theorem baseChants_subset (db : DB) (auth : Bool) (c : Chant)
    (h : c ∈ baseChants db auth) : c ∈ db.chants := by
  cases auth
  · exact (List.mem_filter.mp h).1
  · exact h

theorem baseSequences_subset (db : DB) (auth : Bool) (c : Chant)
    (h : c ∈ baseSequences db auth) : c ∈ db.sequences := by
  cases auth
  · exact (List.mem_filter.mp h).1
  · exact h

/-- Membership in the form branch of the global search: a record is in
the result iff it is in the caller-visible chant or sequence collection
and passes the accumulated Q-object filter and the keyword stage. -/
theorem mem_global_queryset (db : DB) (auth : Bool) (p : SearchParams) (c : Chant)
    (hg : p.hasGetParams = true) (hsb : p.search_bar = none) :
    c ∈ chantSearchQueryset db auth p ↔
      ((c ∈ baseChants db auth ∨ c ∈ baseSequences db auth) ∧
        globalQFilter p c = true ∧ kwTest p c = true) := by
  unfold chantSearchQueryset globalMerged
  rw [hg, hsb]
  simp only [Bool.not_true, Bool.false_eq_true, if_false]
  rw [mem_orderByKeyId]
  cases hk : p.keyword with
  | none =>
    simp [kwTest, hk, List.mem_append, List.mem_filter, or_and_right]
  | some kw =>
    simp only [kwTest, hk, List.mem_append, List.mem_filter]
    constructor
    · rintro (⟨⟨h1, h2⟩, h3⟩ | ⟨⟨h1, h2⟩, h3⟩)
      · exact ⟨Or.inl h1, h2, h3⟩
      · exact ⟨Or.inr h1, h2, h3⟩
    · rintro ⟨h1 | h1, h2, h3⟩
      · exact Or.inl ⟨⟨h1, h2⟩, h3⟩
      · exact Or.inr ⟨⟨h1, h2⟩, h3⟩

/-- Every record the global search returns comes from the caller-visible
chant or sequence collection, in every branch (search bar included). -/
theorem global_queryset_subset_base (db : DB) (auth : Bool) (p : SearchParams)
    (c : Chant) (h : c ∈ chantSearchQueryset db auth p) :
    c ∈ baseChants db auth ∨ c ∈ baseSequences db auth := by
  unfold chantSearchQueryset globalMerged at h
  cases hg : p.hasGetParams with
  | false => rw [hg] at h; simp at h
  | true =>
    rw [hg] at h
    simp only [Bool.not_true, Bool.false_eq_true, if_false] at h
    rw [mem_orderByKeyId] at h
    cases hsb : p.search_bar with
    | some sb =>
      rw [hsb] at h
      by_cases hd : sb.toList.any Char.isDigit = true
      · simp only [hd, if_true] at h
        rcases List.mem_append.mp h with h1 | h1
        · exact Or.inl (List.mem_filter.mp h1).1
        · exact Or.inr (List.mem_filter.mp h1).1
      · simp only [hd, if_false] at h
        rcases List.mem_append.mp h with h1 | h1
        · exact Or.inl (List.mem_filter.mp h1).1
        · exact Or.inr (List.mem_filter.mp h1).1
    | none =>
      rw [hsb] at h
      cases hk : p.keyword with
      | none =>
        rw [hk] at h
        rcases List.mem_append.mp h with h1 | h1
        · exact Or.inl (List.mem_filter.mp h1).1
        · exact Or.inr (List.mem_filter.mp h1).1
      | some kw =>
        rw [hk] at h
        rcases List.mem_append.mp h with h1 | h1
        · exact Or.inl (List.mem_filter.mp (List.mem_filter.mp h1).1).1
        · exact Or.inr (List.mem_filter.mp (List.mem_filter.mp h1).1).1

/-- Membership in the per-source search queryset, when the hard-coded
source exclusion does not fire and the source exists: a record is
returned iff it is in the source-scoped table and passes the Q-object,
keyword and indexing-notes stages. -/
theorem mem_msGetQueryset (db : DB) (source_pk : Nat) (p : SearchParams)
    (src : Source) (l : List Chant) (c : Chant)
    (hg : p.hasGetParams = true)
    (h680 : (p.melodies == some "true" && source_pk == 680970) = false)
    (hfind : db.sources.find? (fun s => s.id == source_pk) = some src)
    (hok : msGetQueryset db source_pk p = Except.ok l) :
    c ∈ l ↔
      (c ∈ (if src.segment_id == 4064 then db.sequences else db.chants) ∧
        c.source.id = source_pk ∧ msQFilter p c = true ∧
        kwTest p c = true ∧ notesTest p c = true) := by
  unfold msGetQueryset at hok
  rw [hg] at hok
  simp only [Bool.not_true, Bool.false_eq_true, if_false] at hok
  rw [h680] at hok
  simp only [Bool.false_eq_true, if_false] at hok
  rw [hfind] at hok
  simp only [Except.ok.injEq] at hok
  subst hok
  rw [mem_orderByKeyId]
  cases hk : p.keyword with
  | none =>
    cases hn : p.indexing_notes with
    | none =>
      simp [kwTest, notesTest, hk, hn, List.mem_filter, and_assoc]
      tauto
    | some q =>
      simp [kwTest, notesTest, hk, hn, List.mem_filter, and_assoc]
      tauto
  | some kw =>
    cases hn : p.indexing_notes with
    | none =>
      simp [kwTest, notesTest, hk, hn, List.mem_filter, and_assoc]
      tauto
    | some q =>
      simp [kwTest, notesTest, hk, hn, List.mem_filter, and_assoc]
      tauto

deriving instance DecidableEq for Except

/-- Fixture: a holding institution. -/
def instW : Institution := ⟨"A-Wn"⟩

/-- Fixture: a published source. -/
def srcPub : Source := ⟨1, true, 1, instW⟩

/-- Fixture: an unpublished source. -/
def srcUnpub : Source := ⟨2, false, 1, instW⟩

/-- Fixture: the source with the hard-coded id 680970, published. -/
def src680970 : Source := ⟨680970, true, 1, instW⟩

/-- Fixture: a chant with a melody, in the published source. -/
def chMelody : Chant := { id := 10, source := srcPub, volpiano := some "1---g" }

/-- Fixture: a chant without a melody, in the published source. -/
def chNoMelody : Chant := { id := 11, source := srcPub }

/-- Fixture: a chant whose incipit starts with the keyword. -/
def chAlleluia : Chant := { id := 12, source := srcPub, incipit := some "Alleluia dulce" }

/-- Fixture: a chant whose only occurrence of the keyword is internal. -/
def chCantate : Chant := { id := 13, source := srcPub, incipit := some "Cantate alleluia" }

/-- Fixture: a chant with a melody, in the unpublished source. -/
def chUnpub : Chant := { id := 14, source := srcUnpub, volpiano := some "1---g" }

/-- Fixture: a chant with a melody, in source 680970. -/
def ch680 : Chant := { id := 15, source := src680970, volpiano := some "1---g" }

/-- Fixture: a chant occupying folio 001r, sequence 1 of the published
source. -/
def chOccupied : Chant :=
  { id := 20, source := srcPub, folio := some "001r", c_sequence := some 1 }

/-- Fixture: the form data of a chant aimed at folio 001r, sequence 1. -/
def formDup : ChantForm := ⟨some "001r", some 1, "Gloria in excelsis deo"⟩

/-- Fixture: per-source search parameters requesting melodies only. -/
def pMelTrue : SearchParams := { melodies := some "true" }

/-- C10: in `ChantSearchMSView.get_queryset`, when the requested source
is 680970 and `melodies` is `"true"`, the returned queryset is empty no
matter what the remaining parameters say — the undocumented hard-coded
exclusion at the top of the method fires before any filter is built. -/
theorem claim_C10_ms_source_exclusion (db : DB) (p : SearchParams)
    (h : p.melodies = some "true") :
    msGetQueryset db 680970 p = Except.ok [] := by
  unfold msGetQueryset
  rw [h]
  cases hg : p.hasGetParams <;> simp

theorem claim_C10_witness :
    msGetQueryset (DB.mk [ch680] [] [src680970] []) 680970 pMelTrue = Except.ok [] :=
  claim_C10_ms_source_exclusion (DB.mk [ch680] [] [src680970] []) pMelTrue rfl

/-- C9: `ChantCreateView.form_valid` detects an existing chant at the
same (source, folio, sequence) position, attaches the duplicate-position
error to the form — making `form.is_valid()` fail, so `form_invalid`
re-renders — and leaves the chant table unchanged. -/
theorem claim_C9_duplicate_create (dbChants : List Chant) (source : Source)
    (form : ChantForm) (new_id : Nat)
    (h : ∃ c, c ∈ dbChants ∧ c.source.id = source.id ∧ c.folio = form.folio ∧
      c.c_sequence = form.c_sequence) :
    form_valid dbChants source form new_id =
      (dbChants, CreateOutcome.invalidForm
        ["Chant with the same sequence and folio already exists in this source."]) := by
  have hdup : (dbChants.any fun c =>
      c.source.id == source.id && c.folio == form.folio &&
        c.c_sequence == form.c_sequence) = true := by
    rw [List.any_eq_true]
    obtain ⟨c, hc, h1, h2, h3⟩ := h
    exact ⟨c, hc, by simp [h1, h2, h3]⟩
  simp [form_valid, hdup]

theorem claim_C9_witness :
    form_valid [chOccupied] srcPub formDup 21 =
      ([chOccupied], CreateOutcome.invalidForm
        ["Chant with the same sequence and folio already exists in this source."]) :=
  claim_C9_duplicate_create [chOccupied] srcPub formDup 21
    ⟨chOccupied, by decide, rfl, rfl, rfl⟩

/-- C7: the keyword filter matches a record iff one of the three text
fields matches, with case-insensitive substring matching when
`op = "contains"` and case-insensitive prefix matching for every other
`op` (absent or unrecognised included); the `"alleluia"` /
`"starts_with"` scenario matches the incipit `"Alleluia dulce"` but not
`"Cantate alleluia"`. -/
theorem claim_C7_keyword_filter :
    (∀ op kw c, op ≠ some "contains" →
      (keywordMatch op kw c = true ↔
        (iStartsOpt c.manuscript_full_text kw = true ∨
         iStartsOpt c.manuscript_full_text_std_spelling kw = true ∨
         iStartsOpt c.incipit kw = true))) ∧
    (∀ kw c, keywordMatch (some "contains") kw c = true ↔
      (iContainsOpt c.manuscript_full_text kw = true ∨
       iContainsOpt c.manuscript_full_text_std_spelling kw = true ∨
       iContainsOpt c.incipit kw = true)) ∧
    (keywordMatch (some "starts_with") "alleluia" chAlleluia = true ∧
     keywordMatch (some "starts_with") "alleluia" chCantate = false) := by
  refine ⟨?_, ?_, ?_, ?_⟩
  · intro op kw c hop
    have hb : (op == some "contains") = false := beq_eq_false_iff_ne.mpr hop
    simp [keywordMatch, hb, Bool.or_eq_true, or_assoc]
  · intro kw c
    simp [keywordMatch, Bool.or_eq_true, or_assoc]
  · decide
  · decide

theorem claim_C7_witness :
    keywordMatch (some "starts_with") "alleluia" chAlleluia = true ↔
      (iStartsOpt chAlleluia.manuscript_full_text "alleluia" = true ∨
       iStartsOpt chAlleluia.manuscript_full_text_std_spelling "alleluia" = true ∨
       iStartsOpt chAlleluia.incipit "alleluia" = true) :=
  claim_C7_keyword_filter.1 (some "starts_with") "alleluia" chAlleluia (by decide)

/-- The same search parameters with the melodies parameter removed: what
"otherwise-matching" quantifies over in the melodies-filter claim. -/
def noMelodies (p : SearchParams) : SearchParams := { p with melodies := none }

theorem globalQFilter_melodies_true (p : SearchParams) (c : Chant)
    (h : p.melodies = some "true") :
    globalQFilter p c = (globalQFilter (noMelodies p) c && c.volpiano.isSome) := by
  cases hv : c.volpiano <;> simp [globalQFilter, noMelodies, h, hv]

theorem msQFilter_melodies_true (p : SearchParams) (c : Chant)
    (h : p.melodies = some "true") :
    msQFilter p c = (msQFilter (noMelodies p) c && c.volpiano.isSome) := by
  cases hv : c.volpiano <;> simp [msQFilter, noMelodies, h, hv]

theorem msQFilter_melodies_false (p : SearchParams) (c : Chant)
    (h : p.melodies = some "false") :
    msQFilter p c = (msQFilter (noMelodies p) c && c.volpiano.isNone) := by
  cases hv : c.volpiano <;> simp [msQFilter, noMelodies, h, hv]

/-- C6 as stated is false on the code: for the per-source search on the
hard-coded source 680970 with `melodies="true"`, an otherwise-matching
record with a non-empty melody encoding is in the corpus, yet the view
returns the empty set rather than exactly those records. -/
theorem claim_C6_counterexample :
    msGetQueryset (DB.mk [ch680] [] [src680970] []) 680970
        { melodies := some "true" } = Except.ok [] ∧
    ch680 ∈ (DB.mk [ch680] [] [src680970] []).chants ∧
    ch680.source.id = 680970 ∧
    msQFilter { melodies := some "true" } ch680 = true ∧
    ch680.volpiano.isSome = true := by decide

/-- C6 (amended): the melodies filter selects by presence of the melody
encoding — `melodies="true"` returns exactly the otherwise-matching
records whose melody-encoding field is non-empty, in the global search
for every source and in the per-source search for every source other
than 680970 (where the hard-coded exclusion returns the empty set
instead); `melodies="false"` in the per-source search returns exactly
the otherwise-matching records whose melody-encoding field is empty. -/
theorem claim_C6_melodies_filter :
    (∀ db auth p c, p.hasGetParams = true → p.search_bar = none →
      p.melodies = some "true" →
      (c ∈ chantSearchQueryset db auth p ↔
        (c ∈ chantSearchQueryset db auth (noMelodies p) ∧
          c.volpiano.isSome = true))) ∧
    (∀ db source_pk p l l2 c, p.hasGetParams = true →
      p.melodies = some "true" → source_pk ≠ 680970 →
      msGetQueryset db source_pk p = Except.ok l →
      msGetQueryset db source_pk (noMelodies p) = Except.ok l2 →
      (c ∈ l ↔ (c ∈ l2 ∧ c.volpiano.isSome = true))) ∧
    (∀ db source_pk p l l2 c, p.hasGetParams = true →
      p.melodies = some "false" →
      msGetQueryset db source_pk p = Except.ok l →
      msGetQueryset db source_pk (noMelodies p) = Except.ok l2 →
      (c ∈ l ↔ (c ∈ l2 ∧ c.volpiano.isNone = true))) ∧
    chantSearchQueryset (DB.mk [chMelody, chNoMelody] [] [srcPub] []) false
      { melodies := some "true" } = [chMelody] ∧
    msGetQueryset (DB.mk [chMelody, chNoMelody] [] [srcPub] []) 1
      { melodies := some "false" } = Except.ok [chNoMelody] := by
  refine ⟨?_, ?_, ?_, by decide, by decide⟩
  · intro db auth p c hg hsb hm
    rw [mem_global_queryset db auth p c hg hsb,
      mem_global_queryset db auth (noMelodies p) c hg hsb,
      globalQFilter_melodies_true p c hm]
    have hkw : kwTest (noMelodies p) c = kwTest p c := rfl
    rw [hkw, Bool.and_eq_true]
    tauto
  · intro db source_pk p l l2 c hg hm hpk hok1 hok2
    cases hfind : db.sources.find? (fun s => s.id == source_pk) with
    | none =>
      exfalso
      unfold msGetQueryset at hok1
      rw [hg] at hok1
      simp only [Bool.not_true, Bool.false_eq_true, if_false] at hok1
      rw [show (p.melodies == some "true" && source_pk == 680970) = false by
            simp [hm, beq_eq_false_iff_ne.mpr hpk]] at hok1
      simp only [Bool.false_eq_true, if_false] at hok1
      rw [hfind] at hok1
      cases hok1
    | some src =>
      rw [mem_msGetQueryset db source_pk p src l c hg
            (by simp [hm, beq_eq_false_iff_ne.mpr hpk]) hfind hok1,
          mem_msGetQueryset db source_pk (noMelodies p) src l2 c hg rfl hfind hok2,
          msQFilter_melodies_true p c hm]
      have hkw : kwTest (noMelodies p) c = kwTest p c := rfl
      have hnt : notesTest (noMelodies p) c = notesTest p c := rfl
      rw [hkw, hnt, Bool.and_eq_true]
      tauto
  · intro db source_pk p l l2 c hg hm hok1 hok2
    cases hfind : db.sources.find? (fun s => s.id == source_pk) with
    | none =>
      exfalso
      unfold msGetQueryset at hok1
      rw [hg] at hok1
      simp only [Bool.not_true, Bool.false_eq_true, if_false] at hok1
      rw [show (p.melodies == some "true" && source_pk == 680970) = false by
            simp [hm]] at hok1
      simp only [Bool.false_eq_true, if_false] at hok1
      rw [hfind] at hok1
      cases hok1
    | some src =>
      rw [mem_msGetQueryset db source_pk p src l c hg (by simp [hm]) hfind hok1,
          mem_msGetQueryset db source_pk (noMelodies p) src l2 c hg rfl hfind hok2,
          msQFilter_melodies_false p c hm]
      have hkw : kwTest (noMelodies p) c = kwTest p c := rfl
      have hnt : notesTest (noMelodies p) c = notesTest p c := rfl
      rw [hkw, hnt, Bool.and_eq_true]
      tauto

theorem claim_C6_witness :
    chMelody ∈ chantSearchQueryset (DB.mk [chMelody, chNoMelody] [] [srcPub] [])
        false { melodies := some "true" } ↔
      (chMelody ∈ chantSearchQueryset (DB.mk [chMelody, chNoMelody] [] [srcPub] [])
          false (noMelodies { melodies := some "true" }) ∧
        chMelody.volpiano.isSome = true) :=
  claim_C6_melodies_filter.1 (DB.mk [chMelody, chNoMelody] [] [srcPub] []) false
    { melodies := some "true" } chMelody rfl rfl rfl

/-- Modelled from the spec: the literal single conjunctive predicate of
spec §4.1, one sub-predicate per present parameter — exact id match for
service and genre, case-insensitive substring for the cantus identifier
and the feast name, exact match for mode and position, the
melody-presence boolean read in both directions (`"true"` requires a
non-empty melody encoding, `"false"` an empty one), and the keyword
sub-predicate.  This is the predicate C2 asserts the global search
realises. -/
def specLiteralConj (p : SearchParams) (c : Chant) : Bool :=
  (match p.service with | some sid => c.service_id == some sid | none => true) &&
  (match p.genre with | some gid => c.genre_id == some gid | none => true) &&
  (match p.cantus_id with | some q => iContainsOpt c.cantus_id q | none => true) &&
  (match p.mode with | some m => c.mode == some m | none => true) &&
  (match p.position with | some q => c.position == some q | none => true) &&
  (match p.melodies with
   | some m =>
     if m = "true" then c.volpiano.isSome
     else if m = "false" then c.volpiano.isNone
     else true
   | none => true) &&
  (match p.feast with
   | some q => (match c.feast with | some f => istrContains f.name q | none => false)
   | none => true) &&
  (match p.keyword with | some kw => keywordMatch p.op kw c | none => true)

/-- The single conjunctive predicate the global search actually realises:
as `specLiteralConj`, but the melodies parameter contributes a constraint
only when its value is `"true"`. -/
def specAmendedConj (p : SearchParams) (c : Chant) : Bool :=
  (match p.service with | some sid => c.service_id == some sid | none => true) &&
  (match p.genre with | some gid => c.genre_id == some gid | none => true) &&
  (match p.cantus_id with | some q => iContainsOpt c.cantus_id q | none => true) &&
  (match p.mode with | some m => c.mode == some m | none => true) &&
  (match p.position with | some q => c.position == some q | none => true) &&
  (match p.melodies with
   | some m => if m = "true" then c.volpiano.isSome else true
   | none => true) &&
  (match p.feast with
   | some q => (match c.feast with | some f => istrContains f.name q | none => false)
   | none => true) &&
  (match p.keyword with | some kw => keywordMatch p.op kw c | none => true)

/-- C2 as stated is false on the code: with `melodies="false"` the
global search imposes no melody constraint, so a record with a non-empty
melody encoding is returned although it fails the literal conjunction of
the present parameters' sub-predicates. -/
theorem claim_C2_counterexample :
    chantSearchQueryset (DB.mk [chMelody] [] [srcPub] []) false
        { melodies := some "false" } = [chMelody] ∧
    specLiteralConj { melodies := some "false" } chMelody = false := by decide

/-- C2 (amended): for every combination of the optional form parameters,
the global search returns exactly the records of the caller-visible
collections satisfying the conjunction of the present parameters'
sub-predicates — where the melodies parameter contributes a constraint
only when its value is `"true"` (`"false"` adds no constraint in this
view) — and the result is always a subset of the unfiltered chant and
sequence collections. -/
theorem claim_C2_conjunctive_filter : ∀ db auth p,
    p.hasGetParams = true → p.search_bar = none →
    (∀ c, c ∈ chantSearchQueryset db auth p ↔
      ((c ∈ baseChants db auth ∨ c ∈ baseSequences db auth) ∧
        specAmendedConj p c = true)) ∧
    (∀ c, c ∈ chantSearchQueryset db auth p → c ∈ db.chants ++ db.sequences) := by
  intro db auth p hg hsb
  constructor
  · intro c
    rw [mem_global_queryset db auth p c hg hsb]
    have heq : specAmendedConj p c = (globalQFilter p c && kwTest p c) := rfl
    rw [heq, Bool.and_eq_true]
  · intro c hc
    rcases global_queryset_subset_base db auth p c hc with h | h
    · exact List.mem_append.mpr (Or.inl (baseChants_subset db auth c h))
    · exact List.mem_append.mpr (Or.inr (baseSequences_subset db auth c h))

theorem claim_C2_witness :
    chMelody ∈ chantSearchQueryset (DB.mk [chMelody] [] [srcPub] []) false
        { cantus_id := some "001010" } ↔
      ((chMelody ∈ baseChants (DB.mk [chMelody] [] [srcPub] []) false ∨
        chMelody ∈ baseSequences (DB.mk [chMelody] [] [srcPub] []) false) ∧
        specAmendedConj { cantus_id := some "001010" } chMelody = true) :=
  (claim_C2_conjunctive_filter (DB.mk [chMelody] [] [srcPub] []) false
    { cantus_id := some "001010" } rfl rfl).1 chMelody

/-- The store with both record collections restricted to published
sources: what the global search effectively queries for an
unauthenticated caller. -/
def publishedDB (db : DB) : DB :=
  DB.mk (publishedOnly db.chants) (publishedOnly db.sequences) db.sources db.feasts

theorem publishedOnly_idem (l : List Chant) :
    publishedOnly (publishedOnly l) = publishedOnly l := by
  simp [publishedOnly, List.filter_filter]

/-- C1: an unauthenticated caller never receives a record of an
unpublished source — in the global search (every branch and every
parameter combination), in the by-cantus-id listing, and in the
per-source search response (where access to an unpublished source is
denied outright, given referential integrity of the source rows); and
for unauthenticated callers the global search is literally the same
search run over the collections pre-restricted to published sources,
i.e. the published-source restriction precedes the caller's explicit
criteria. -/
theorem claim_C1_unpublished_invisible :
    (∀ db p c, c ∈ chantSearchQueryset db false p → c.source.published = true) ∧
    (∀ db cid c, c ∈ chantSeqByCantusId db false cid → c.source.published = true) ∧
    (∀ db source_pk p l c, sourceConsistent db = true →
      msSearchResponse db false source_pk p = Except.ok l → c ∈ l →
      c.source.published = true) ∧
    (∀ db p, chantSearchQueryset db false p =
      chantSearchQueryset (publishedDB db) false p) := by
  refine ⟨?_, ?_, ?_, ?_⟩
  · intro db p c hc
    rcases global_queryset_subset_base db false p c hc with h | h
    · exact ((mem_baseChants_unauth db c).mp h).2
    · exact ((mem_baseSequences_unauth db c).mp h).2
  · intro db cid c hc
    unfold chantSeqByCantusId at hc
    rw [(List.perm_insertionSort _ _).mem_iff, List.mem_dedup] at hc
    simp only [Bool.false_eq_true, if_false, List.mem_append] at hc
    rcases hc with h | h
    · exact (List.mem_filter.mp h).2
    · exact (List.mem_filter.mp h).2
  · intro db source_pk p l c hcons hok hc
    unfold msSearchResponse at hok
    cases hq : msGetQueryset db source_pk p with
    | error e => rw [hq] at hok; cases hok
    | ok qs =>
      rw [hq] at hok
      cases hfind : db.sources.find? (fun s => s.id == source_pk) with
      | none => rw [hfind] at hok; cases hok
      | some src =>
        rw [hfind] at hok
        by_cases hp : src.published = true
        · simp only [hp, Bool.not_true, Bool.false_and, Bool.false_eq_true,
            if_false, Except.ok.injEq] at hok
          subst hok
          cases hg : p.hasGetParams with
          | false =>
            exfalso
            unfold msGetQueryset at hq
            rw [hg] at hq
            simp only [Bool.not_false, if_true, Except.ok.injEq] at hq
            subst hq
            cases hc
          | true =>
            by_cases h680 : (p.melodies == some "true" && source_pk == 680970) = true
            · exfalso
              unfold msGetQueryset at hq
              rw [hg, h680] at hq
              simp only [Bool.not_true, Bool.false_eq_true, if_false,
                if_true, Except.ok.injEq] at hq
              subst hq
              cases hc
            · have h680f : (p.melodies == some "true" && source_pk == 680970) = false := by
                simpa using h680
              have hmem := (mem_msGetQueryset db source_pk p src qs c hg h680f
                hfind hq).mp hc
              have hcid : c.source.id = source_pk := hmem.2.1
              have hsrcmem : src ∈ db.sources := List.mem_of_find?_eq_some hfind
              have hsrcid : (src.id == source_pk) = true := by
                have := List.find?_some hfind
                simpa using this
              have hsid : src.id = source_pk := by simpa using hsrcid
              have hctab : c ∈ db.chants ++ db.sequences := by
                rcases hmem.1 with h
                by_cases hseg : src.segment_id = 4064
                · simp only [hseg, if_pos] at h
                  simp only [beq_self_eq_true, if_true] at h
                  exact List.mem_append.mpr (Or.inr h)
                · rw [if_neg (by simpa using hseg)] at h
                  exact List.mem_append.mpr (Or.inl h)
              have hall := (List.all_eq_true.mp hcons) c hctab
              have hall2 := (List.all_eq_true.mp hall) src hsrcmem
              have : c.source = src := by
                have hne : (src.id != c.source.id) = false := by
                  simp [bne, hcid, hsid]
                rw [hne, Bool.false_or, beq_iff_eq] at hall2
                exact hall2
              rw [this]
              exact hp
        · have hp' : src.published = false := by simpa using hp
          simp [hp'] at hok
  · intro db p
    have h1 : baseChants (publishedDB db) false = baseChants db false := by
      simp [baseChants, publishedDB, publishedOnly_idem]
    have h2 : baseSequences (publishedDB db) false = baseSequences db false := by
      simp [baseSequences, publishedDB, publishedOnly_idem]
    unfold chantSearchQueryset globalMerged
    rw [h1, h2]

theorem claim_C1_witness :
    chMelody.source.published = true :=
  claim_C1_unpublished_invisible.2.2.1 (DB.mk [chMelody] [] [srcPub] []) 1
    ({} : SearchParams) [chMelody] chMelody (by decide) (by decide) (by decide)

/-- C3: an unrecognised ordering key falls back to the owning
institution's identifying code in both search views (the global view
falls back to `source__holding_institution__siglum`, the per-source view
to `siglum`, and both keys order by the institution siglum); the record
id is always the final tiebreak; on primary-key ties the comparison is
the ascending id comparison whether or not `sort=desc` is requested
(the tiebreak is not reversed); and `sort=desc` negates exactly the
primary comparison. -/
theorem claim_C3_ordering_fallback :
    (∀ o : String,
      o ∉ ["incipit", "service", "genre", "cantus_id", "mode",
           "has_fulltext", "has_melody", "has_image"] →
      resolveOrderGlobal (some o) = "source__holding_institution__siglum") ∧
    (resolveOrderGlobal none = "source__holding_institution__siglum") ∧
    (∀ o : String,
      o ∉ ["siglum", "incipit", "genre", "cantus_id", "mode", "feast", "service",
           "has_fulltext", "has_melody", "has_image"] →
      resolveOrderMS (some o) = "siglum") ∧
    (∀ c, fieldKey "source__holding_institution__siglum" c =
        optStrKey (some c.source.holding_institution.siglum) ∧
      fieldKey "siglum" c = optStrKey (some c.source.holding_institution.siglum)) ∧
    (∀ field desc a b, fieldKey field a = fieldKey field b →
      (searchLe field desc a b = true ↔ a.id ≤ b.id)) ∧
    (∀ field a b, fieldKey field a ≠ fieldKey field b →
      searchLe field true a b = searchLe field false b a) := by
  refine ⟨?_, rfl, ?_, ?_, ?_, ?_⟩
  · intro o ho
    simp [resolveOrderGlobal, ho]
  · intro o ho
    simp only [List.mem_cons, List.not_mem_nil, or_false, not_or] at ho
    obtain ⟨h1, h2, h3, h4, h5, h6, h7, h8, h9, h10⟩ := ho
    simp [resolveOrderMS, h1, h2, h3, h4, h5, h6, h7, h8, h9, h10]
  · intro c
    constructor <;> rfl
  · intro field desc a b h
    simp [searchLe, h]
  · intro field a b h
    have h' : ¬ fieldKey field b = fieldKey field a := fun e => h e.symm
    simp [searchLe, dirLe, h, h']

theorem claim_C3_witness :
    resolveOrderGlobal (some "folio") = "source__holding_institution__siglum" ∧
    resolveOrderMS (some "folio") = "siglum" :=
  ⟨claim_C3_ordering_fallback.1 "folio" (by decide),
   claim_C3_ordering_fallback.2.2.1 "folio" (by decide)⟩

theorem groupGet_nil (k : Option Nat) : groupGet [] k = [] := rfl

theorem groupGet_cons (k1 : Option Nat) (l : List Chant)
    (rest : List (Option Nat × List Chant)) (k : Option Nat) :
    groupGet ((k1, l) :: rest) k = if k1 = k then l else groupGet rest k := by
  by_cases h : k1 = k
  · simp [groupGet, List.find?_cons, h]
  · simp [groupGet, List.find?_cons, h]

theorem groupGet_addToGroup (m : List (Option Nat × List Chant)) (k1 : Option Nat)
    (c : Chant) (k : Option Nat) :
    groupGet (addToGroup m k1 c) k =
      if k1 = k then groupGet m k ++ [c] else groupGet m k := by
  induction m with
  | nil =>
    by_cases h : k1 = k <;> simp [addToGroup, groupGet_cons, groupGet_nil, h]
  | cons e rest ih =>
    obtain ⟨ke, le⟩ := e
    by_cases he : ke = k1
    · subst he
      simp only [addToGroup, if_pos rfl]
      by_cases h : ke = k <;> simp [groupGet_cons, h]
    · simp only [addToGroup, if_neg he]
      by_cases h : ke = k
      · subst h
        have : ¬ k1 = ke := fun e => he e.symm
        simp [groupGet_cons, this]
      · simp [groupGet_cons, h, ih]

theorem groupGet_build (chants : List Chant) (k : Option Nat) :
    groupGet (buildFeastsChants chants) k =
      chants.filter (fun c => c.feast.map Feast.id == k) := by
  suffices hgen : ∀ (cs : List Chant) (m : List (Option Nat × List Chant)),
      groupGet (cs.foldl (fun m c => addToGroup m (c.feast.map Feast.id) c) m) k =
        groupGet m k ++ cs.filter (fun c => c.feast.map Feast.id == k) by
    have := hgen chants []
    simpa [buildFeastsChants, groupGet_nil] using this
  intro cs
  induction cs with
  | nil => intro m; simp
  | cons c rest ih =>
    intro m
    simp only [List.foldl_cons, ih, groupGet_addToGroup]
    by_cases h : c.feast.map Feast.id = k
    · simp [h, List.filter_cons, List.append_assoc]
    · have hb : (c.feast.map Feast.id == k) = false := beq_eq_false_iff_ne.mpr h
      simp [h, hb, List.filter_cons]

theorem addToGroup_keys (m : List (Option Nat × List Chant)) (k1 : Option Nat)
    (c : Chant) (k : Option Nat) :
    (k ∈ (addToGroup m k1 c).map (fun e => e.1)) ↔
      (k ∈ m.map (fun e => e.1) ∨ k = k1) := by
  induction m with
  | nil => simp [addToGroup]
  | cons e rest ih =>
    obtain ⟨ke, le⟩ := e
    by_cases he : ke = k1
    · subst he
      simp only [addToGroup, eq_self_iff_true, if_true, List.map_cons, List.mem_cons]
      tauto
    · simp only [addToGroup, if_neg he, List.map_cons, List.mem_cons, ih]
      tauto

theorem build_keys (chants : List Chant) (k : Option Nat) :
    (k ∈ (buildFeastsChants chants).map (fun e => e.1)) ↔
      ∃ c, c ∈ chants ∧ c.feast.map Feast.id = k := by
  suffices hgen : ∀ (cs : List Chant) (m : List (Option Nat × List Chant)),
      (k ∈ (cs.foldl (fun m c => addToGroup m (c.feast.map Feast.id) c) m).map
          (fun e => e.1)) ↔
        (k ∈ m.map (fun e => e.1) ∨ ∃ c, c ∈ cs ∧ c.feast.map Feast.id = k) by
    have := hgen chants []
    simpa [buildFeastsChants] using this
  intro cs
  induction cs with
  | nil => intro m; simp
  | cons c rest ih =>
    intro m
    simp only [List.foldl_cons, ih, addToGroup_keys, List.mem_cons]
    constructor
    · rintro (⟨h | h⟩ | ⟨x, hx, hk⟩)
      · exact Or.inl h
      · exact Or.inr ⟨c, Or.inl rfl, h.symm⟩
      · exact Or.inr ⟨x, Or.inr hx, hk⟩
    · rintro (h | ⟨x, hx | hx, hk⟩)
      · exact Or.inl (Or.inl h)
      · subst hx; exact Or.inl (Or.inr hk.symm)
      · exact Or.inr ⟨x, hx, hk⟩

/-- Fixture: feast F1. -/
def feastF1 : Feast := ⟨101, "F1"⟩

/-- Fixture: feast F2. -/
def feastF2 : Feast := ⟨102, "F2"⟩

/-- Fixture: record A on folio 001r with feast F1. -/
def chA : Chant :=
  { id := 30, source := srcPub, folio := some "001r", c_sequence := some 1,
    feast := some feastF1 }

/-- Fixture: record B on folio 001r with feast F2. -/
def chB : Chant :=
  { id := 31, source := srcPub, folio := some "001r", c_sequence := some 2,
    feast := some feastF2 }

/-- Fixture: record C on folio 002r with feast F1. -/
def chC : Chant :=
  { id := 32, source := srcPub, folio := some "002r", c_sequence := some 1,
    feast := some feastF1 }

/-- C5 as stated is false on the code: `get_chants_with_feasts` always
appends the absent-feast group (the `defaultdict` access
`feasts_chants[None]` creates it), so on the A/B/C scenario the folio
001r grouping carries a trailing `(none, [])` entry that the claimed
output omits. -/
theorem claim_C5_counterexample :
    get_chants_with_feasts [feastF1, feastF2] (chantsInFolio [chA, chB, chC] "001r") ≠
      [(some feastF1, [chA]), (some feastF2, [chB])] ∧
    get_chants_with_feasts [feastF1, feastF2] (chantsInFolio [chA, chB, chC] "001r") =
      [(some feastF1, [chA]), (some feastF2, [chB]), (none, [])] := by decide

/-- C5 (amended): grouping a folio's records by feast partitions them by
feast identity — every emitted group is exactly the sublist of records
with that feast id, in original fetch order — the absent-feast group is
always emitted last (also when it is empty), and every record is covered
when the referenced feasts exist in the feast table; the A/B/C scenario
yields folio 001r → [(F1,[A]), (F2,[B]), (none,[])] and folio 002r →
[(F1,[C]), (none,[])]. -/
theorem claim_C5_folio_feast_grouping :
    (∀ dbFeasts chants f l,
      (some f, l) ∈ get_chants_with_feasts dbFeasts chants →
      l = chants.filter (fun c => c.feast.map Feast.id == some f.id)) ∧
    (∀ dbFeasts chants,
      (get_chants_with_feasts dbFeasts chants).getLast? =
        some (none, chants.filter (fun c => c.feast.map Feast.id == none))) ∧
    (∀ dbFeasts chants, (∀ c, c ∈ chants → ∀ f, c.feast = some f → f ∈ dbFeasts) →
      ∀ c, c ∈ chants →
        ∃ g, g ∈ get_chants_with_feasts dbFeasts chants ∧ c ∈ g.2) ∧
    get_chants_with_feasts [feastF1, feastF2] (chantsInFolio [chA, chB, chC] "001r") =
      [(some feastF1, [chA]), (some feastF2, [chB]), (none, [])] ∧
    get_chants_with_feasts [feastF1, feastF2] (chantsInFolio [chA, chB, chC] "002r") =
      [(some feastF1, [chC]), (none, [])] := by
  refine ⟨?_, ?_, ?_, by decide, by decide⟩
  · intro dbFeasts chants f l hmem
    simp only [get_chants_with_feasts] at hmem
    rcases List.mem_append.mp hmem with h | h
    · rcases List.mem_map.mp h with ⟨f0, hf0, heq⟩
      rw [Prod.mk.injEq] at heq
      obtain ⟨hsf, hl⟩ := heq
      rw [Option.some.injEq] at hsf
      subst hsf
      rw [← hl, groupGet_build]
    · simp at h
  · intro dbFeasts chants
    simp only [get_chants_with_feasts]
    rw [List.getLast?_concat, groupGet_build]
  · intro dbFeasts chants hcov c hc
    cases hcf : c.feast with
    | none =>
      refine ⟨(none, groupGet (buildFeastsChants chants) none), ?_, ?_⟩
      · simp only [get_chants_with_feasts]
        exact List.mem_append.mpr (Or.inr (List.mem_singleton.mpr rfl))
      · rw [groupGet_build]
        exact List.mem_filter.mpr ⟨hc, by simp [hcf]⟩
    | some f =>
      have hfdb : f ∈ dbFeasts := hcov c hc f hcf
      have hkey : (some f.id) ∈ (buildFeastsChants chants).map (fun e => e.1) :=
        (build_keys chants (some f.id)).mpr ⟨c, hc, by simp [hcf]⟩
      refine ⟨(some f, groupGet (buildFeastsChants chants) (some f.id)), ?_, ?_⟩
      · simp only [get_chants_with_feasts]
        refine List.mem_append.mpr (Or.inl (List.mem_map.mpr ⟨f, ?_, rfl⟩))
        exact List.mem_filter.mpr ⟨hfdb, by simpa using hkey⟩
      · rw [groupGet_build]
        exact List.mem_filter.mpr ⟨hc, by simp [hcf]⟩

theorem claim_C5_witness :
    ∃ g, g ∈ get_chants_with_feasts [feastF1, feastF2]
        (chantsInFolio [chA, chB, chC] "001r") ∧ chA ∈ g.2 :=
  claim_C5_folio_feast_grouping.2.2.1 [feastF1, feastF2]
    (chantsInFolio [chA, chB, chC] "001r") (by decide) chA (by decide)

theorem bumpFeast_keys (m : List (Feast × Nat)) (f : Feast) (i : Nat) :
    (i ∈ (bumpFeast m f).map (fun p => p.1.id)) ↔
      (i ∈ m.map (fun p => p.1.id) ∨ i = f.id) := by
  induction m with
  | nil => simp [bumpFeast]
  | cons e rest ih =>
    obtain ⟨g, k⟩ := e
    by_cases he : g.id = f.id
    · simp only [bumpFeast, if_pos he, List.map_cons, List.mem_cons]
      constructor
      · rintro (h | h)
        · exact Or.inl (Or.inl h)
        · exact Or.inl (Or.inr h)
      · rintro ((h | h) | h)
        · exact Or.inl h
        · exact Or.inr h
        · exact Or.inl (he ▸ h)
    · simp only [bumpFeast, if_neg he, List.map_cons, List.mem_cons, ih]
      tauto

theorem bumpFeast_nodup (m : List (Feast × Nat)) (f : Feast)
    (h : (m.map (fun p => p.1.id)).Nodup) :
    ((bumpFeast m f).map (fun p => p.1.id)).Nodup := by
  induction m with
  | nil => simp [bumpFeast]
  | cons e rest ih =>
    obtain ⟨g, k⟩ := e
    simp only [List.map_cons, List.nodup_cons] at h
    obtain ⟨hni, hnd⟩ := h
    by_cases he : g.id = f.id
    · simp only [bumpFeast, if_pos he, List.map_cons, List.nodup_cons]
      exact ⟨hni, hnd⟩
    · simp only [bumpFeast, if_neg he, List.map_cons, List.nodup_cons]
      refine ⟨?_, ih hnd⟩
      rw [bumpFeast_keys]
      rintro (h | h)
      · exact hni h
      · exact he h

theorem bumpFeast_origin (m : List (Feast × Nat)) (f : Feast) :
    ∀ p, p ∈ bumpFeast m f → p.1 = f ∨ ∃ q, q ∈ m ∧ q.1 = p.1 := by
  induction m with
  | nil =>
    intro p hp
    simp only [bumpFeast, List.mem_singleton] at hp
    subst hp
    exact Or.inl rfl
  | cons e rest ih =>
    obtain ⟨g, k⟩ := e
    intro p hp
    by_cases he : g.id = f.id
    · simp only [bumpFeast, if_pos he, List.mem_cons] at hp
      rcases hp with hp | hp
      · exact Or.inr ⟨(g, k), List.mem_cons_self _ _, by rw [hp]⟩
      · exact Or.inr ⟨p, List.mem_cons_of_mem _ hp, rfl⟩
    · simp only [bumpFeast, if_neg he, List.mem_cons] at hp
      rcases hp with hp | hp
      · exact Or.inr ⟨(g, k), List.mem_cons_self _ _, by rw [hp]⟩
      · rcases ih p hp with h | ⟨q, hq, hq1⟩
        · exact Or.inl h
        · exact Or.inr ⟨q, List.mem_cons_of_mem _ hq, hq1⟩

theorem bumpFeast_find (m : List (Feast × Nat)) (f : Feast) (i : Nat) :
    (bumpFeast m f).find? (fun q => q.1.id == i) =
      if i = f.id then
        (match m.find? (fun q => q.1.id == i) with
         | some q => some (q.1, q.2 + 1)
         | none => some (f, 1))
      else m.find? (fun q => q.1.id == i) := by
  induction m with
  | nil =>
    by_cases h : i = f.id
    · simp [bumpFeast, List.find?_cons, h]
    · have hfb : (f.id == i) = false := beq_eq_false_iff_ne.mpr (fun e => h e.symm)
      simp [bumpFeast, List.find?_cons, h, hfb]
  | cons e rest ih =>
    obtain ⟨g, k⟩ := e
    by_cases he : g.id = f.id
    · by_cases hi : i = f.id
      · have hg : (g.id == i) = true := by simp [he, hi]
        simp [bumpFeast, he, List.find?_cons, hg, hi]
      · have hg : (g.id == i) = false := by
          simp only [beq_eq_false_iff_ne]
          intro e2
          exact hi (by rw [← e2, he])
        have hfb : (f.id == i) = false := beq_eq_false_iff_ne.mpr (fun e => hi e.symm)
        simp [bumpFeast, he, List.find?_cons, hg, hi, hfb]
    · by_cases hg : (g.id == i) = true
      · have hi : ¬ i = f.id := by
          intro e2
          exact he (by rw [beq_iff_eq] at hg; rw [hg, e2])
        simp [bumpFeast, he, List.find?_cons, hg, hi]
      · have hg' : (g.id == i) = false := by simpa using hg
        simp [bumpFeast, he, List.find?_cons, hg', ih]

theorem find_of_mem_nodup (m : List (Feast × Nat)) (p : Feast × Nat)
    (hnd : (m.map (fun q => q.1.id)).Nodup) (hp : p ∈ m) :
    m.find? (fun q => q.1.id == p.1.id) = some p := by
  induction m with
  | nil => cases hp
  | cons e rest ih =>
    obtain ⟨g, k⟩ := e
    simp only [List.map_cons, List.nodup_cons] at hnd
    obtain ⟨hni, hnd2⟩ := hnd
    rcases List.mem_cons.mp hp with hp1 | hp1
    · subst hp1
      simp [List.find?_cons]
    · have hne : (g.id == p.1.id) = false := by
        simp only [beq_eq_false_iff_ne]
        intro e2
        exact hni (e2 ▸ List.mem_map.mpr ⟨p, hp1, rfl⟩)
      simp [List.find?_cons, hne, ih hnd2 hp1]

theorem countFeasts_sound_gen : ∀ (l : List Feast) (m : List (Feast × Nat)),
    (m.map (fun p => p.1.id)).Nodup →
    ∀ p, p ∈ l.foldl bumpFeast m →
      p.2 = (match m.find? (fun q => q.1.id == p.1.id) with
             | some q => q.2
             | none => 0) + l.countP (fun x => x.id == p.1.id) ∧
      (p.1 ∈ l ∨ ∃ q, q ∈ m ∧ q.1 = p.1) := by
  intro l
  induction l with
  | nil =>
    intro m hnd p hp
    simp only [List.foldl_nil] at hp
    constructor
    · rw [find_of_mem_nodup m p hnd hp]
      simp
    · exact Or.inr ⟨p, hp, rfl⟩
  | cons f rest ih =>
    intro m hnd p hp
    simp only [List.foldl_cons] at hp
    have hnd2 := bumpFeast_nodup m f hnd
    obtain ⟨hcount, horig⟩ := ih (bumpFeast m f) hnd2 p hp
    constructor
    · rw [hcount, bumpFeast_find]
      by_cases hi : p.1.id = f.id
      · rw [if_pos hi]
        have hfb : (f.id == p.1.id) = true := by simp [hi]
        cases hfind : m.find? (fun q => q.1.id == p.1.id) with
        | none =>
          simp [hfind, List.countP_cons, hfb]
          omega
        | some q =>
          simp [hfind, List.countP_cons, hfb]
          ring
      · rw [if_neg hi]
        have hfb : (f.id == p.1.id) = false :=
          beq_eq_false_iff_ne.mpr (fun e => hi e.symm)
        simp [List.countP_cons, hfb]
    · rcases horig with h | ⟨q, hq, hq1⟩
      · exact Or.inl (List.mem_cons_of_mem _ h)
      · rcases bumpFeast_origin m f q hq with h2 | ⟨q2, hq2, hq21⟩
        · exact Or.inl (List.mem_cons.mpr (Or.inl (by rw [← hq1, h2])))
        · exact Or.inr ⟨q2, hq2, by rw [hq21, hq1]⟩

theorem countFeasts_keys (l : List Feast) (i : Nat) :
    (i ∈ (countFeasts l).map (fun p => p.1.id)) ↔ ∃ f, f ∈ l ∧ f.id = i := by
  suffices hgen : ∀ (fs : List Feast) (m : List (Feast × Nat)),
      (i ∈ (fs.foldl bumpFeast m).map (fun p => p.1.id)) ↔
        (i ∈ m.map (fun p => p.1.id) ∨ ∃ f, f ∈ fs ∧ f.id = i) by
    simpa [countFeasts] using hgen l []
  intro fs
  induction fs with
  | nil => intro m; simp
  | cons f rest ih =>
    intro m
    simp only [List.foldl_cons, ih, bumpFeast_keys, List.mem_cons]
    constructor
    · rintro ((h | h) | ⟨x, hx, hi2⟩)
      · exact Or.inl h
      · exact Or.inr ⟨f, Or.inl rfl, h.symm⟩
      · exact Or.inr ⟨x, Or.inr hx, hi2⟩
    · rintro (h | ⟨x, hx | hx, hi2⟩)
      · exact Or.inl (Or.inl h)
      · subst hx
        exact Or.inl (Or.inr hi2.symm)
      · exact Or.inr ⟨x, hx, hi2⟩

/-- Soundness of the `Counter`: every emitted (feast, count) pair counts
exactly the occurrences (by feast id) in the counted list, and its feast
object occurs in that list. -/
theorem countFeasts_sound (l : List Feast) (p : Feast × Nat)
    (hp : p ∈ countFeasts l) :
    p.2 = l.countP (fun x => x.id == p.1.id) ∧ p.1 ∈ l := by
  have h := countFeasts_sound_gen l [] (by simp) p (by simpa [countFeasts] using hp)
  obtain ⟨h1, h2⟩ := h
  refine ⟨by simpa using h1, ?_⟩
  rcases h2 with h | ⟨q, hq, _⟩
  · exact h
  · cases hq

/-- Completeness of the `Counter`: every counted feast has an entry. -/
theorem countFeasts_complete (l : List Feast) (f : Feast) (hf : f ∈ l) :
    ∃ p, p ∈ countFeasts l ∧ p.1.id = f.id := by
  have h : f.id ∈ (countFeasts l).map (fun p => p.1.id) :=
    (countFeasts_keys l f.id).mpr ⟨f, hf, rfl⟩
  rcases List.mem_map.mp h with ⟨p, hp, hpe⟩
  exact ⟨p, hp, hpe⟩

instance countDescIsTotal : IsTotal (Feast × Nat) (fun a b => a.2 ≥ b.2) :=
  ⟨fun a b => Nat.le_total b.2 a.2⟩

instance countDescIsTrans : IsTrans (Feast × Nat) (fun a b => a.2 ≥ b.2) :=
  ⟨fun _ _ _ h1 h2 => Nat.le_trans h2 h1⟩

/-- Fixture: feast F0, the reference record's feast. -/
def feastF0 : Feast := ⟨100, "F0"⟩

/-- Fixture: feast F3. -/
def feastF3 : Feast := ⟨103, "F3"⟩

/-- Fixture: the latest chant, whose feast is F0. -/
def chLatest : Chant := { id := 40, source := srcPub, feast := some feastF0 }

/-- Fixture: chants ending feast F0 with next-record links, one with a
missing link and one whose next record has no feast. -/
def chEnd1 : Chant :=
  { id := 41, source := srcPub, feast := some feastF0,
    is_last_chant_in_feast := true, next_chant_id := some 51 }

def chEnd2 : Chant :=
  { id := 42, source := srcPub, feast := some feastF0,
    is_last_chant_in_feast := true, next_chant_id := some 52 }

def chEnd3 : Chant :=
  { id := 43, source := srcPub, feast := some feastF0,
    is_last_chant_in_feast := true, next_chant_id := some 53 }

def chEnd4 : Chant :=
  { id := 44, source := srcPub, feast := some feastF0,
    is_last_chant_in_feast := true, next_chant_id := some 54 }

def chEnd5 : Chant :=
  { id := 45, source := srcPub, feast := some feastF0,
    is_last_chant_in_feast := true, next_chant_id := none }

def chEnd6 : Chant :=
  { id := 46, source := srcPub, feast := some feastF0,
    is_last_chant_in_feast := true, next_chant_id := some 55 }

/-- Fixture: the next records the links point to. -/
def chNext51 : Chant := { id := 51, source := srcPub, feast := some feastF1 }

def chNext52 : Chant := { id := 52, source := srcPub, feast := some feastF2 }

def chNext53 : Chant := { id := 53, source := srcPub, feast := some feastF3 }

def chNext54 : Chant := { id := 54, source := srcPub, feast := some feastF3 }

def chNext55 : Chant := { id := 55, source := srcPub, feast := none }

/-- Fixture: the corpus for the feast-suggestion scenario. -/
def dbSuggest : DB :=
  DB.mk [chEnd1, chEnd2, chEnd3, chEnd4, chEnd5, chEnd6,
         chNext51, chNext52, chNext53, chNext54, chNext55]
    [] [srcPub] [feastF0, feastF1, feastF2, feastF3]

/-- C8: for a reference record with a feast, the suggestion aggregator
collects the feasts of the next-record links of the records flagged
last-in-feast for that feast (missing links and feastless next-records
skipped — that is the `nextFeasts` collection), and returns a
permutation of its frequency table — per-id occurrence counts, every
counted feast represented — sorted descending by count; the stable sort
keeps ties in first-encounter order, as the concrete scenario
(F1 and F2 tied behind F3) exhibits. -/
theorem claim_C8_suggested_feasts (db : DB) (latest_chant : Chant) (f0 : Feast)
    (h : latest_chant.feast = some f0) :
    List.Pairwise (fun a b : Feast × Nat => a.2 ≥ b.2)
      (get_suggested_feasts db latest_chant) ∧
    (get_suggested_feasts db latest_chant).Perm
      (countFeasts (nextFeasts db latest_chant.feast)) ∧
    (∀ p, p ∈ countFeasts (nextFeasts db latest_chant.feast) →
      p.2 = (nextFeasts db latest_chant.feast).countP (fun x => x.id == p.1.id) ∧
      p.1 ∈ nextFeasts db latest_chant.feast) ∧
    (∀ f, f ∈ nextFeasts db latest_chant.feast →
      ∃ p, p ∈ countFeasts (nextFeasts db latest_chant.feast) ∧ p.1.id = f.id) ∧
    nextFeasts dbSuggest chLatest.feast = [feastF1, feastF2, feastF3, feastF3] ∧
    get_suggested_feasts dbSuggest chLatest =
      [(feastF3, 2), (feastF1, 1), (feastF2, 1)] := by
  refine ⟨?_, ?_, ?_, ?_, by decide, by decide⟩
  · exact List.sorted_insertionSort _ _
  · exact List.perm_insertionSort _ _
  · intro p hp
    exact countFeasts_sound _ p hp
  · intro f hf
    exact countFeasts_complete _ f hf

theorem claim_C8_witness :
    List.Pairwise (fun a b : Feast × Nat => a.2 ≥ b.2)
      (get_suggested_feasts dbSuggest chLatest) :=
  (claim_C8_suggested_feasts dbSuggest chLatest feastF0 rfl).1

theorem baseChants_sublist (db : DB) (auth : Bool) :
    List.Sublist (baseChants db auth) db.chants := by
  cases auth
  · exact List.filter_sublist _
  · exact List.Sublist.refl _

theorem baseSequences_sublist (db : DB) (auth : Bool) :
    List.Sublist (baseSequences db auth) db.sequences := by
  cases auth
  · exact List.filter_sublist _
  · exact List.Sublist.refl _

theorem globalMerged_sublist (db : DB) (auth : Bool) (p : SearchParams) :
    List.Sublist (globalMerged db auth p) (db.chants ++ db.sequences) := by
  unfold globalMerged
  cases p.search_bar with
  | some sb =>
    by_cases hd : sb.toList.any Char.isDigit = true
    · simp only [hd, if_true]
      exact List.Sublist.append
        ((List.filter_sublist _).trans (baseChants_sublist db auth))
        ((List.filter_sublist _).trans (baseSequences_sublist db auth))
    · simp only [hd, Bool.false_eq_true, if_false]
      exact List.Sublist.append
        ((List.filter_sublist _).trans (baseChants_sublist db auth))
        ((List.filter_sublist _).trans (baseSequences_sublist db auth))
  | none =>
    cases p.keyword with
    | none =>
      exact List.Sublist.append
        ((List.filter_sublist _).trans (baseChants_sublist db auth))
        ((List.filter_sublist _).trans (baseSequences_sublist db auth))
    | some kw =>
      exact List.Sublist.append
        ((List.filter_sublist _).trans
          ((List.filter_sublist _).trans (baseChants_sublist db auth)))
        ((List.filter_sublist _).trans
          ((List.filter_sublist _).trans (baseSequences_sublist db auth)))

theorem chantSearchQueryset_eq (db : DB) (auth : Bool) (p : SearchParams) :
    chantSearchQueryset db auth p =
      if p.hasGetParams then
        orderByKeyId (resolveOrderGlobal p.order) (descRequested p.sort)
          (globalMerged db auth p)
      else [] := by
  unfold chantSearchQueryset
  cases p.hasGetParams <;> simp

theorem queryset_ids_nodup (db : DB) (auth : Bool) (p : SearchParams)
    (h : ((db.chants ++ db.sequences).map Chant.id).Nodup) :
    ((chantSearchQueryset db auth p).map Chant.id).Nodup := by
  rw [chantSearchQueryset_eq]
  cases hg : p.hasGetParams with
  | false => simp
  | true =>
    simp only [if_true]
    have h1 : ((globalMerged db auth p).map Chant.id).Nodup :=
      h.sublist ((globalMerged_sublist db auth p).map Chant.id)
    exact ((orderByKeyId_perm _ _ _).map Chant.id).nodup_iff.mpr h1

/-- Two orderings of the same records that are both sorted under the
primary-key-then-id comparison agree, provided record ids are unique:
the id tiebreak makes the order deterministic. -/
theorem sorted_perm_eq (field : String) (desc : Bool) :
    ∀ (l1 l2 : List Chant), (l1.map Chant.id).Nodup → l1.Perm l2 →
      List.Pairwise (fun a b => searchLe field desc a b = true) l1 →
      List.Pairwise (fun a b => searchLe field desc a b = true) l2 →
      l1 = l2 := by
  intro l1
  induction l1 with
  | nil =>
    intro l2 _ hp _ _
    exact hp.nil_eq
  | cons a t1 ih =>
    intro l2 hnd hp hs1 hs2
    cases l2 with
    | nil =>
      exact absurd hp.symm.nil_eq (by simp)
    | cons b t2 =>
      have hab : a = b := by
        by_cases he : a = b
        · exact he
        · exfalso
          have ha2 : a ∈ b :: t2 := hp.mem_iff.mp (List.mem_cons_self a t1)
          have hb1 : b ∈ a :: t1 := hp.symm.mem_iff.mp (List.mem_cons_self b t2)
          have ha2t : a ∈ t2 := by
            rcases List.mem_cons.mp ha2 with h | h
            · exact absurd h he
            · exact h
          have hb1t : b ∈ t1 := by
            rcases List.mem_cons.mp hb1 with h | h
            · exact absurd h.symm he
            · exact h
          have hrab : searchLe field desc a b = true :=
            (List.pairwise_cons.mp hs1).1 b hb1t
          have hrba : searchLe field desc b a = true :=
            (List.pairwise_cons.mp hs2).1 a ha2t
          have hid : a.id = b.id := searchLe_id_eq field desc a b hrab hrba
          simp only [List.map_cons, List.nodup_cons] at hnd
          exact hnd.1 (List.mem_map.mpr ⟨b, hb1t, hid.symm⟩)
      subst hab
      have hps : t1.Perm t2 := hp.cons_inv
      have hnd2 : (t1.map Chant.id).Nodup := by
        simp only [List.map_cons, List.nodup_cons] at hnd
        exact hnd.2
      rw [ih t2 hnd2 hps (List.pairwise_cons.mp hs1).2 (List.pairwise_cons.mp hs2).2]

theorem paginate_partition (l : List Chant) (n : Nat) (hn : 1 ≤ n) :
    paginatePage l n ++ paginatePage l (n + 1) = (l.drop (100 * (n - 1))).take 200 := by
  unfold paginatePage
  have h2 : 100 * (n + 1 - 1) = 100 * (n - 1) + 100 := by omega
  rw [h2, ← List.drop_drop]
  rw [show (200 : Nat) = 100 + 100 from rfl, List.take_add]

theorem paginate_disjoint (l : List Chant) (n : Nat) (hn : 1 ≤ n) (hnd : l.Nodup) :
    ∀ x, x ∈ paginatePage l n → x ∉ paginatePage l (n + 1) := by
  intro x hx hx2
  unfold paginatePage at hx hx2
  have h2 : 100 * (n + 1 - 1) = 100 * (n - 1) + 100 := by omega
  rw [h2, ← List.drop_drop] at hx2
  have hdn : (l.drop (100 * (n - 1))).Nodup :=
    hnd.sublist (List.drop_sublist _ _)
  have hdisj := List.disjoint_take_drop hdn (Nat.le_refl 100)
  exact hdisj hx ((List.take_sublist _ _).subset hx2)

/-- C4: slicing the ordered global search result into 100-record pages
partitions it — page N followed by page N+1 is exactly the contiguous
200-record slice (no record skipped between the pages), and with unique
record ids the two pages never overlap; the result is sorted under the
primary-key-then-id comparison, and with unique record ids that
comparison determines the order uniquely (any reordering of the same
records that is also sorted is the result itself), which is what makes
pagination stable across requests. -/
theorem claim_C4_pagination (db : DB) (auth : Bool) (p : SearchParams) (n : Nat)
    (hn : 1 ≤ n) :
    paginatePage (chantSearchQueryset db auth p) n ++
        paginatePage (chantSearchQueryset db auth p) (n + 1) =
      ((chantSearchQueryset db auth p).drop (100 * (n - 1))).take 200 ∧
    (((db.chants ++ db.sequences).map Chant.id).Nodup →
      ∀ x, x ∈ paginatePage (chantSearchQueryset db auth p) n →
        x ∉ paginatePage (chantSearchQueryset db auth p) (n + 1)) ∧
    List.Pairwise
      (fun a b =>
        searchLe (resolveOrderGlobal p.order) (descRequested p.sort) a b = true)
      (chantSearchQueryset db auth p) ∧
    (∀ l2, ((db.chants ++ db.sequences).map Chant.id).Nodup →
      (chantSearchQueryset db auth p).Perm l2 →
      List.Pairwise
        (fun a b =>
          searchLe (resolveOrderGlobal p.order) (descRequested p.sort) a b = true)
        l2 →
      l2 = chantSearchQueryset db auth p) := by
  have hsorted : List.Pairwise
      (fun a b =>
        searchLe (resolveOrderGlobal p.order) (descRequested p.sort) a b = true)
      (chantSearchQueryset db auth p) := by
    rw [chantSearchQueryset_eq]
    cases hg : p.hasGetParams
    · simp
    · simp only [if_true]
      exact orderByKeyId_pairwise _ _ _
  refine ⟨paginate_partition _ n hn, ?_, hsorted, ?_⟩
  · intro hids
    exact paginate_disjoint _ n hn
      (List.Nodup.of_map Chant.id (queryset_ids_nodup db auth p hids))
  · intro l2 hids hperm hpair
    exact (sorted_perm_eq _ _ _ l2 (queryset_ids_nodup db auth p hids)
      hperm hsorted hpair).symm

theorem claim_C4_witness :
    chMelody ∉ paginatePage
      (chantSearchQueryset (DB.mk [chMelody, chNoMelody] [] [srcPub] []) false
        ({} : SearchParams)) 2 :=
  (claim_C4_pagination (DB.mk [chMelody, chNoMelody] [] [srcPub] []) false
      ({} : SearchParams) 1 (by decide)).2.1 (by decide) chMelody (by decide)
